import Mathlib

/-!
Verification of the CKB chain storage engine (`store/src/store.rs`).

The columnar KV backend (`ckb_db`, assumed by the spec, §4.A) is embedded as a
function from column and byte key to an optional stored value; a write batch is
a list of put/delete operations applied in issue order on commit.  The binary
codec (`ckb_protos` / `bincode`) is embedded by storing typed values tagged by
a sum type `Val`: decoding with the matching tag returns the value, decoding
with a wrong tag (a panic in the source) is modelled as `none` and proved
unreachable wherever a theorem relies on a read.  Keys are genuine byte
strings (`List Nat`) so that the keying conventions of the dual-purpose
columns (8-byte little-endian numbers vs 32-byte hashes) are faithfully
represented.
-/

namespace CkbStore

/-- Byte strings: keys and raw values of the KV backend. -/
abbrev Bytes := List Nat

/-- 32-byte hash (`numext_fixed_hash::H256`). -/
def H256 : Type := { l : List Nat // l.length = 32 }

instance : DecidableEq H256 :=
  fun a b => decidable_of_iff (a.val = b.val) Subtype.ext_iff.symm

/-- Block header (`ckb_core::header::Header`); the content-derived `hash`
field is the primary identity.  Fields not used by any claim are omitted. -/
structure Header where
  parent_hash : H256
  number : Nat
  timestamp : Nat
  epoch : Nat
  difficulty : Nat
  nonce : Nat
  hash : H256
deriving DecidableEq

/-- A spendable output (`ckb_core::transaction::CellOutput`).  `data_hash`
abstracts `CellOutput::data_hash()`. -/
structure CellOutput where
  capacity : Nat
  lock : Nat
  data_hash : H256
deriving DecidableEq

/-- `ckb_core::transaction::CellOutPoint`: `(tx_hash, index: u32)`. -/
structure CellOutPoint where
  tx_hash : H256
  index : Nat
deriving DecidableEq

/-- Transaction (`ckb_core::transaction::Transaction`); identified by its
content-derived `hash`. -/
structure Transaction where
  version : Nat
  inputs : List CellOutPoint
  outputs : List CellOutput
  hash : H256
deriving DecidableEq

/-- Modelled from the spec: `Transaction::is_cellbase` of `ckb_core` (not
under src/): the cellbase mints coins and "has no real inputs" (glossary). -/
def Transaction.is_cellbase (tx : Transaction) : Bool :=
  tx.inputs.isEmpty

/-- Uncle block (`ckb_core::uncle::UncleBlock`); its hash is its header's. -/
structure UncleBlock where
  header : Header
deriving DecidableEq

def UncleBlock.hash (u : UncleBlock) : H256 := u.header.hash

/-- Proposal short id, kept abstract. -/
abbrev ProposalShortId := Nat

/-- Block: `(Header, [Transaction], [UncleBlock], [ProposalShortId])`. -/
structure Block where
  header : Header
  transactions : List Transaction
  uncles : List UncleBlock
  proposals : List ProposalShortId
deriving DecidableEq

structure DaoStats where
  accumulated_rate : Nat
  accumulated_capacity : Nat
deriving DecidableEq

/-- Chain-position metadata (`ckb_core::extras::BlockExt`). -/
structure BlockExt where
  received_at : Nat
  total_difficulty : Nat
  total_uncles_count : Nat
  verified : Option Bool
  txs_fees : List Nat
  dao_stats : DaoStats
deriving DecidableEq

/-- Per-epoch snapshot (`ckb_core::extras::EpochExt`), keyed by its anchor
(the last block hash of the previous epoch).  `remainder_reward` stands for
the remaining payload fields. -/
structure EpochExt where
  number : Nat
  last_block_hash_in_previous_epoch : H256
  remainder_reward : Nat
deriving DecidableEq

/-- `(block_hash, index_within_block)` (`ckb_core::extras::TransactionAddress`). -/
structure TransactionAddress where
  block_hash : H256
  index : Nat
deriving DecidableEq

structure BlockInfo where
  number : Nat
  epoch : Nat
deriving DecidableEq

/-- Per-output metadata (`ckb_core::cell::CellMeta`), as constructed by
`attach_block`. -/
structure CellMeta where
  cell_output : Option CellOutput
  out_point : CellOutPoint
  block_info : Option BlockInfo
  cellbase : Bool
  capacity : Nat
  data_hash : Option H256
deriving DecidableEq

/-- Modelled from the spec: `ckb_core::transaction_meta::TransactionMeta`
(not under src/): per-transaction output-liveness bitmap. -/
structure TransactionMeta where
  block_number : Nat
  epoch : Nat
  bits : List Bool
  cellbase : Bool
deriving DecidableEq

/-- Modelled from the spec: `TransactionMeta::new` — all output bits live. -/
def TransactionMeta.mk_new (number epoch outputs : Nat) : TransactionMeta :=
  ⟨number, epoch, List.replicate outputs true, false⟩

/-- Modelled from the spec: `TransactionMeta::new_cellbase` — all bits live,
cellbase flag set. -/
def TransactionMeta.mk_new_cellbase (number epoch outputs : Nat) : TransactionMeta :=
  ⟨number, epoch, List.replicate outputs true, true⟩

/-- The 13 columns of the schema (`COLUMN_*` constants). -/
inductive Col
| BLOCK_HEADER
| BLOCK_BODY
| BLOCK_UNCLE
| BLOCK_PROPOSAL_IDS
| BLOCK_EXT
| BLOCK_EPOCH
| INDEX
| META
| TRANSACTION_ADDR
| CELL_META
| CELL_SET
| EPOCH
| UNCLES
deriving DecidableEq

/-- A stored value, tagged by the codec family that produced it.  Decoding a
value with the wrong tag corresponds to a decode panic in the source. -/
inductive Val
| header (h : Header)
| body (txs : List Transaction)
| uncles (us : List UncleBlock)
| proposals (ps : List ProposalShortId)
| blockExt (e : BlockExt)
| epochExt (e : EpochExt)
| hash (h : H256)
| number (n : Nat)
| txAddr (a : TransactionAddress)
| cellMeta (m : CellMeta)
| txMeta (m : TransactionMeta)
| empty
deriving DecidableEq

/-- Little-endian byte encoding on `w` bytes of `n` (mod `256^w`): models
`u64::to_le_bytes` (w = 8) and the u32 half of `CellKey` (w = 4). -/
def leBytes : Nat → Nat → Bytes
| 0, _ => []
| w + 1, n => n % 256 :: leBytes w (n / 256)

/-- Key of the number direction of the INDEX/EPOCH columns: `to_le_bytes()`
of a u64. -/
def numberKey (n : Nat) : Bytes := leBytes 8 n

/-- Key of the hash direction: the raw 32 bytes (`hash.as_bytes()`). -/
def hashKey (h : H256) : Bytes := h.val

/-- `CellKey::calculate(tx_hash, index)`: the canonical 36-byte
`tx_hash ‖ index_le_u32` concatenation. -/
def cellKey (tx_hash : H256) (index : Nat) : Bytes :=
  tx_hash.val ++ leBytes 4 index

/-- `b"TIP_HEADER"`. -/
def META_TIP_HEADER_KEY : Bytes := [84, 73, 80, 95, 72, 69, 65, 68, 69, 82]

/-- `b"CURRENT_EPOCH"`. -/
def META_CURRENT_EPOCH_KEY : Bytes :=
  [67, 85, 82, 82, 69, 78, 84, 95, 69, 80, 79, 67, 72]

/-- Modelled from the spec: the committed contents of the columnar KV backend
(`ckb_db`, not under src/; §4.A): each column is an independent keyspace. -/
def Store : Type := Col → Bytes → Option Val

def emptyStore : Store := fun _ _ => none

/-- Modelled from the spec: one accumulated mutation of a write batch
(`DbBatch::insert` / `DbBatch::delete`, §4.A). -/
inductive BatchOp
| put (col : Col) (key : Bytes) (v : Val)
| del (col : Col) (key : Bytes)
deriving DecidableEq

/-- The column/key a batch operation targets. -/
def opAddr : BatchOp → Col × Bytes
| .put c k _ => (c, k)
| .del c k => (c, k)

/-- Modelled from the spec: effect of a single accumulated mutation on the
committed state (§4.A: last write wins within the batch's issue order). -/
def applyOp (s : Store) : BatchOp → Store
| .put c k v => fun c' k' => if c = c' ∧ k = k' then some v else s c' k'
| .del c k => fun c' k' => if c = c' ∧ k = k' then none else s c' k'

/-- Modelled from the spec: `DbBatch::commit` — the accumulated mutations
become visible atomically, in issue order. -/
def commitOps (ops : List BatchOp) (s : Store) : Store :=
  ops.foldl applyOp s

/-- `List.map` with the element's position passed to the function; models the
`iter().enumerate()` loops of `attach_block`. -/
def idxMap {α β : Type} (f : Nat → α → β) : Nat → List α → List β
| _, [] => []
| i, a :: as => f i a :: idxMap f (i + 1) as

/-- `StoreBatch::insert_block`: header, uncles, proposals, body under the
block hash, in issue order. -/
def insert_block (block : Block) : List BatchOp :=
  [ .put .BLOCK_HEADER (hashKey block.header.hash) (.header block.header),
    .put .BLOCK_UNCLE (hashKey block.header.hash) (.uncles block.uncles),
    .put .BLOCK_PROPOSAL_IDS (hashKey block.header.hash) (.proposals block.proposals),
    .put .BLOCK_BODY (hashKey block.header.hash) (.body block.transactions) ]

/-- `StoreBatch::insert_block_ext`. -/
def insert_block_ext (block_hash : H256) (ext : BlockExt) : List BatchOp :=
  [.put .BLOCK_EXT (hashKey block_hash) (.blockExt ext)]

/-- `StoreBatch::insert_tip_header`: stores the raw hash bytes. -/
def insert_tip_header (h : Header) : List BatchOp :=
  [.put .META META_TIP_HEADER_KEY (.hash h.hash)]

/-- `StoreBatch::insert_current_epoch_ext`. -/
def insert_current_epoch_ext (e : EpochExt) : List BatchOp :=
  [.put .META META_CURRENT_EPOCH_KEY (.epochExt e)]

/-- `StoreBatch::insert_block_epoch_index`. -/
def insert_block_epoch_index (block_hash epoch_hash : H256) : List BatchOp :=
  [.put .BLOCK_EPOCH (hashKey block_hash) (.hash epoch_hash)]

/-- `StoreBatch::insert_epoch_ext`: the EPOCH column is written in both
directions — `anchor → EpochExt` and `epoch_number → anchor`. -/
def insert_epoch_ext (h : H256) (e : EpochExt) : List BatchOp :=
  [ .put .EPOCH (hashKey h) (.epochExt e),
    .put .EPOCH (numberKey e.number) (.hash h) ]

/-- The `CellMeta` that `attach_block` stores for output `j` of a transaction
(the out-point index is the output position as a u32). -/
def cellMetaVal (tx_hash : H256) (number epoch : Nat) (cellbase : Bool)
    (j : Nat) (output : CellOutput) : Val :=
  .cellMeta ⟨none, ⟨tx_hash, j % 2 ^ 32⟩, some ⟨number, epoch⟩, cellbase,
    output.capacity, some output.data_hash⟩

/-- The CELL_META write for output `j` of a transaction. -/
def cellMetaPut (tx_hash : H256) (number epoch : Nat) (cellbase : Bool)
    (j : Nat) (output : CellOutput) : BatchOp :=
  .put .CELL_META (cellKey tx_hash j) (cellMetaVal tx_hash number epoch cellbase j output)

/-- The operations `attach_block` issues for the transaction at position
`index`: its `TransactionAddress`, then one `CellMeta` per output. -/
def attachTxOps (block_hash : H256) (number epoch : Nat) (index : Nat)
    (tx : Transaction) : List BatchOp :=
  .put .TRANSACTION_ADDR (hashKey tx.hash) (.txAddr ⟨block_hash, index⟩) ::
    idxMap (cellMetaPut tx.hash number epoch (index == 0)) 0 tx.outputs

/-- `StoreBatch::attach_block`: per-transaction address and cell-meta writes,
then `INDEX[number] = hash`, the uncle marks, and `INDEX[hash] = number`. -/
def attach_block (block : Block) : List BatchOp :=
  (idxMap (attachTxOps block.header.hash block.header.number block.header.epoch)
      0 block.transactions).flatten
  ++ .put .INDEX (numberKey block.header.number) (.hash block.header.hash)
     :: (block.uncles.map fun u => .put .UNCLES (hashKey u.hash) .empty)
  ++ [.put .INDEX (hashKey block.header.hash) (.number block.header.number)]

/-- The deletions `detach_block` issues for one transaction. -/
def detachTxOps (tx : Transaction) : List BatchOp :=
  .del .TRANSACTION_ADDR (hashKey tx.hash) ::
    idxMap (fun j _ => .del .CELL_META (cellKey tx.hash j)) 0 tx.outputs

/-- `StoreBatch::detach_block`: the symmetric deletions of `attach_block`. -/
def detach_block (block : Block) : List BatchOp :=
  (block.transactions.map detachTxOps).flatten
  ++ (block.uncles.map fun u => .del .UNCLES (hashKey u.hash))
  ++ [ .del .INDEX (numberKey block.header.number),
       .del .INDEX (hashKey block.header.hash) ]

/-- `StoreBatch::update_cell_set`. -/
def update_cell_set (tx_hash : H256) (meta : TransactionMeta) : List BatchOp :=
  [.put .CELL_SET (hashKey tx_hash) (.txMeta meta)]

/-- `StoreBatch::delete_cell_set`. -/
def delete_cell_set (tx_hash : H256) : List BatchOp :=
  [.del .CELL_SET (hashKey tx_hash)]

/-- Modelled from the spec: the bounded LRU cache of the `lru_cache` crate
(not under src/; §4.D): most-recent entry first, strict LRU eviction,
capacity 0 disables the cache. -/
structure LruCache (K V : Type) where
  cap : Nat
  items : List (K × V)

/-- Pure lookup (no recency change); used to state cache hypotheses. -/
def LruCache.lookup {K V : Type} [DecidableEq K] (c : LruCache K V) (k : K) :
    Option V :=
  (c.items.find? fun p => decide (p.1 = k)).map Prod.snd

/-- Modelled from the spec: `LruCache::get_refresh` — on a hit the entry
moves to the front (most recently used); on a miss nothing changes. -/
def LruCache.get_refresh {K V : Type} [DecidableEq K] (c : LruCache K V)
    (k : K) : Option V × LruCache K V :=
  match c.items.find? fun p => decide (p.1 = k) with
  | none => (none, c)
  | some p => (some p.2, ⟨c.cap, p :: c.items.filter fun q => decide (q.1 ≠ k)⟩)

/-- Modelled from the spec: `LruCache::insert` — the new entry becomes most
recent and the least recently used one is evicted past capacity. -/
def LruCache.insert {K V : Type} [DecidableEq K] (c : LruCache K V) (k : K)
    (v : V) : LruCache K V :=
  ⟨c.cap, ((k, v) :: c.items.filter fun q => decide (q.1 ≠ k)).take c.cap⟩

/-- `ChainKVStore`: the committed backend state plus the two read-through
caches. -/
structure ChainKVStore where
  db : Store
  header_cache : LruCache H256 Header
  cell_output_cache : LruCache (H256 × Nat) CellOutput

/-- A freshly opened store over an empty backend (`ChainKVStore::with_config`:
empty caches of the configured capacities). -/
def freshStore (header_cache_size cell_output_cache_size : Nat) : ChainKVStore :=
  ⟨emptyStore, ⟨header_cache_size, []⟩, ⟨cell_output_cache_size, []⟩⟩

/-- `ChainStore::get_block_body`: decode the stored body. -/
def get_block_body (s : Store) (h : H256) : Option (List Transaction) :=
  match s .BLOCK_BODY (hashKey h) with
  | some (.body txs) => some txs
  | _ => none

/-- `ChainStore::get_block_txs_hashes`: only the hash vector of the body. -/
def get_block_txs_hashes (s : Store) (h : H256) : Option (List H256) :=
  match s .BLOCK_BODY (hashKey h) with
  | some (.body txs) => some (txs.map Transaction.hash)
  | _ => none

/-- `ChainStore::get_block_uncles`. -/
def get_block_uncles (s : Store) (h : H256) : Option (List UncleBlock) :=
  match s .BLOCK_UNCLE (hashKey h) with
  | some (.uncles us) => some us
  | _ => none

/-- `ChainStore::get_block_proposal_txs_ids`. -/
def get_block_proposal_txs_ids (s : Store) (h : H256) :
    Option (List ProposalShortId) :=
  match s .BLOCK_PROPOSAL_IDS (hashKey h) with
  | some (.proposals ps) => some ps
  | _ => none

/-- `ChainStore::get_block_ext`. -/
def get_block_ext (s : Store) (h : H256) : Option BlockExt :=
  match s .BLOCK_EXT (hashKey h) with
  | some (.blockExt e) => some e
  | _ => none

/-- `ChainStore::get_block_hash`: INDEX in the number direction. -/
def get_block_hash (s : Store) (number : Nat) : Option H256 :=
  match s .INDEX (numberKey number) with
  | some (.hash h) => some h
  | _ => none

/-- `ChainStore::get_block_number`: INDEX in the hash direction. -/
def get_block_number (s : Store) (h : H256) : Option Nat :=
  match s .INDEX (hashKey h) with
  | some (.number n) => some n
  | _ => none

/-- `ChainStore::get_current_epoch_ext`. -/
def get_current_epoch_ext (s : Store) : Option EpochExt :=
  match s .META META_CURRENT_EPOCH_KEY with
  | some (.epochExt e) => some e
  | _ => none

/-- `ChainStore::get_epoch_ext`: EPOCH keyed by the anchor hash. -/
def get_epoch_ext (s : Store) (h : H256) : Option EpochExt :=
  match s .EPOCH (hashKey h) with
  | some (.epochExt e) => some e
  | _ => none

/-- `ChainStore::get_epoch_index`: EPOCH keyed by the epoch number. -/
def get_epoch_index (s : Store) (number : Nat) : Option H256 :=
  match s .EPOCH (numberKey number) with
  | some (.hash h) => some h
  | _ => none

/-- `ChainStore::get_block_epoch_index`. -/
def get_block_epoch_index (s : Store) (h : H256) : Option H256 :=
  match s .BLOCK_EPOCH (hashKey h) with
  | some (.hash eh) => some eh
  | _ => none

/-- `ChainStore::get_transaction_address`. -/
def get_transaction_address (s : Store) (h : H256) : Option TransactionAddress :=
  match s .TRANSACTION_ADDR (hashKey h) with
  | some (.txAddr a) => some a
  | _ => none

/-- `ChainStore::get_transaction`: resolve the address, then fetch the
`addr.index`-th transaction of the stored body. -/
def get_transaction (s : Store) (h : H256) : Option (Transaction × H256) :=
  (get_transaction_address s h).bind fun addr =>
    ((get_block_body s addr.block_hash).bind fun txs =>
        txs.get? addr.index).map fun tx => (tx, addr.block_hash)

/-- `ChainStore::get_cell_meta`. -/
def get_cell_meta (s : Store) (tx_hash : H256) (index : Nat) : Option CellMeta :=
  match s .CELL_META (cellKey tx_hash index) with
  | some (.cellMeta m) => some m
  | _ => none

/-- `ChainStore::is_uncle`: UNCLES membership. -/
def is_uncle (s : Store) (h : H256) : Bool :=
  (s .UNCLES (hashKey h)).isSome

/-- `ChainStore::get_cellbase`: body's transaction 0.  The source panics with
"cellbase address should exist" when a body is stored but empty, and with a
decode panic when the stored bytes are not a body; both are `Except.error`
here.  An absent body yields `Except.ok none` without panicking. -/
def get_cellbase (s : Store) (h : H256) :
    Except String (Option Transaction) :=
  match s .BLOCK_BODY (hashKey h) with
  | some (.body txs) =>
    match txs.get? 0 with
    | some tx => .ok (some tx)
    | none => .error "cellbase address should exist"
  | some _ => .error "decode panic"
  | none => .ok none

/-- The backend read path of `get_block_header` (no cache): decode the
stored header.  This is both the cache-miss path of the cached getter and
the spec's reference read-through semantics for the coherence claim. -/
def uncached_get_block_header (s : Store) (h : H256) : Option Header :=
  match s .BLOCK_HEADER (hashKey h) with
  | some (.header header) => some header
  | _ => none

/-- Reference (spec-side) read: `get_tip_header` with no cache. -/
def uncached_get_tip_header (s : Store) : Option Header :=
  match s .META META_TIP_HEADER_KEY with
  | some (.hash h) => uncached_get_block_header s h
  | _ => none

/-- The backend read path of `get_cell_output` (no cache): resolve the
transaction address, then fetch output `index` of transaction `addr.index`
of the stored body.  This is both the cache-miss path of the cached getter
and the spec's reference read-through semantics. -/
def uncached_get_cell_output (s : Store) (tx_hash : H256) (index : Nat) :
    Option CellOutput :=
  (get_transaction_address s tx_hash).bind fun addr =>
    (get_block_body s addr.block_hash).bind fun txs =>
      (txs.get? addr.index).bind fun tx => tx.outputs.get? index

/-- `ChainStore::get_block_header`: probe the header cache (refreshing
recency), on a miss read the backend and insert the decoded header. -/
def get_block_header (cs : ChainKVStore) (h : H256) :
    Option Header × ChainKVStore :=
  match cs.header_cache.get_refresh h with
  | (some header, hc) => (some header, { cs with header_cache := hc })
  | (none, hc) =>
    match uncached_get_block_header cs.db h with
    | some header => (some header, { cs with header_cache := hc.insert h header })
    | none => (none, { cs with header_cache := hc })

/-- `ChainStore::get_tip_header`: META/TIP_HEADER, then the (cached) header. -/
def get_tip_header (cs : ChainKVStore) : Option Header × ChainKVStore :=
  match cs.db .META META_TIP_HEADER_KEY with
  | some (.hash h) => get_block_header cs h
  | _ => (none, cs)

/-- `ChainStore::get_block`: header through the cache, then body, uncles and
proposals; a missing facet is an `expect` panic in the source, modelled as
`none` and proved unreachable where invariant 1 holds. -/
def get_block (cs : ChainKVStore) (h : H256) : Option Block × ChainKVStore :=
  match get_block_header cs h with
  | (some header, cs1) =>
    match get_block_body cs1.db h, get_block_uncles cs1.db h,
        get_block_proposal_txs_ids cs1.db h with
    | some txs, some us, some ps => (some ⟨header, txs, us, ps⟩, cs1)
    | _, _, _ => (none, cs1)
  | (none, cs1) => (none, cs1)

/-- `ChainStore::get_cell_output`: probe the cell-output cache; on a miss
read through to the backend and insert into the cache. -/
def get_cell_output (cs : ChainKVStore) (tx_hash : H256) (index : Nat) :
    Option CellOutput × ChainKVStore :=
  match cs.cell_output_cache.get_refresh (tx_hash, index) with
  | (some output, cc) => (some output, { cs with cell_output_cache := cc })
  | (none, cc) =>
    match uncached_get_cell_output cs.db tx_hash index with
    | some output =>
      (some output, { cs with cell_output_cache := cc.insert (tx_hash, index) output })
    | none => (none, { cs with cell_output_cache := cc })

/-- Every header-cache entry agrees with the backend. -/
def headerCacheOK (cs : ChainKVStore) : Prop :=
  ∀ p ∈ cs.header_cache.items, uncached_get_block_header cs.db p.1 = some p.2

/-- Every cell-output-cache entry agrees with the backend. -/
def cellOutputCacheOK (cs : ChainKVStore) : Prop :=
  ∀ p ∈ cs.cell_output_cache.items,
    uncached_get_cell_output cs.db p.1.1 p.1.2 = some p.2

/-- `ckb_core::extras::DEFAULT_ACCUMULATED_RATE` (not under src/); the
claims only use it as an abstract constant. -/
def DEFAULT_ACCUMULATED_RATE : Nat := 10 ^ 16

/-- `Capacity::safe_add`: u64 addition, `None` on overflow. -/
def safe_add (a b : Nat) : Option Nat :=
  if a + b < 2 ^ 64 then some (a + b) else none

/-- The genesis `dao_stats.accumulated_capacity`: fold `safe_add` over the
capacities of the first transaction's outputs, skipping output 0; `none`
models the overflow `expect` panic, zero when there is no transaction. -/
def genesisAccumulatedCapacity (genesis : Block) : Option Nat :=
  match genesis.transactions.get? 0 with
  | some tx => (tx.outputs.drop 1).foldlM (fun acc output => safe_add acc output.capacity) 0
  | none => some 0

/-- Modelled from the spec: the `Consensus` descriptor of `ckb_chain_spec`
(not under src/), restricted to the two accessors `init` uses. -/
structure Consensus where
  genesis_block : Block
  genesis_epoch_ext : EpochExt

/-- The `BlockExt` that `init` builds for the genesis block. -/
def genesisBlockExt (genesis : Block) (cap : Nat) : BlockExt :=
  ⟨genesis.header.timestamp, genesis.header.difficulty, 0, some true, [],
    ⟨DEFAULT_ACCUMULATED_RATE, cap⟩⟩

/-- The cell-set writes of `init`: one `TransactionMeta` per genesis
transaction (`new_cellbase` for a cellbase, `new` otherwise, all bits live). -/
def initCellSetOps (genesis : Block) : List BatchOp :=
  (genesis.transactions.map fun tx =>
    update_cell_set tx.hash
      (if tx.is_cellbase then
        TransactionMeta.mk_new_cellbase genesis.header.number genesis.header.epoch
          tx.outputs.length
      else
        TransactionMeta.mk_new genesis.header.number genesis.header.epoch
          tx.outputs.length)).flatten

/-- The single batch `init` commits, given the computed accumulated
capacity. -/
def initOps (consensus : Consensus) (cap : Nat) : List BatchOp :=
  initCellSetOps consensus.genesis_block
  ++ insert_block consensus.genesis_block
  ++ insert_block_ext consensus.genesis_block.header.hash
      (genesisBlockExt consensus.genesis_block cap)
  ++ insert_tip_header consensus.genesis_block.header
  ++ insert_current_epoch_ext consensus.genesis_epoch_ext
  ++ insert_block_epoch_index consensus.genesis_block.header.hash
      consensus.genesis_epoch_ext.last_block_hash_in_previous_epoch
  ++ insert_epoch_ext consensus.genesis_epoch_ext.last_block_hash_in_previous_epoch
      consensus.genesis_epoch_ext
  ++ attach_block consensus.genesis_block

/-- `ChainStore::init`: seed the store from the consensus descriptor in one
committed batch; `none` models the fatal capacity-overflow panic. -/
def init (cs : ChainKVStore) (consensus : Consensus) : Option ChainKVStore :=
  (genesisAccumulatedCapacity consensus.genesis_block).map fun cap =>
    { cs with db := commitOps (initOps consensus cap) cs.db }

/-- A store together with one open (uncommitted) batch. -/
structure SysState where
  store : ChainKVStore
  pending : List BatchOp

/-- One typed `StoreBatch` call. -/
inductive BatchCmd
| insert_block (b : Block)
| insert_block_ext (h : H256) (e : BlockExt)
| insert_tip_header (h : Header)
| insert_current_epoch_ext (e : EpochExt)
| insert_block_epoch_index (bh eh : H256)
| insert_epoch_ext (h : H256) (e : EpochExt)
| attach_block (b : Block)
| detach_block (b : Block)
| update_cell_set (h : H256) (m : TransactionMeta)
| delete_cell_set (h : H256)

/-- The mutations a `StoreBatch` call accumulates. -/
def cmdOps : BatchCmd → List BatchOp
| .insert_block b => insert_block b
| .insert_block_ext h e => insert_block_ext h e
| .insert_tip_header h => insert_tip_header h
| .insert_current_epoch_ext e => insert_current_epoch_ext e
| .insert_block_epoch_index bh eh => insert_block_epoch_index bh eh
| .insert_epoch_ext h e => insert_epoch_ext h e
| .attach_block b => attach_block b
| .detach_block b => detach_block b
| .update_cell_set h m => update_cell_set h m
| .delete_cell_set h => delete_cell_set h

/-- Issue one `StoreBatch` call: the mutation is only accumulated. -/
def issue (sys : SysState) (c : BatchCmd) : SysState :=
  { sys with pending := sys.pending ++ cmdOps c }

/-- Issue a sequence of `StoreBatch` calls. -/
def issueAll (sys : SysState) (cs : List BatchCmd) : SysState :=
  cs.foldl issue sys

/-- `StoreBatch::commit`: the accumulated mutations become visible at once. -/
def commitSys (sys : SysState) : SysState :=
  ⟨{ sys.store with db := commitOps sys.pending sys.store.db }, []⟩

/-- Little-endian value of a byte string; decoder used to reason about
injectivity of the key encodings. -/
def leVal : Bytes → Nat
| [] => 0
| b :: bs => b % 256 + 256 * leVal bs

/-- A concrete hash: 32 copies of one byte. -/
def byteHash (b : Nat) : H256 := ⟨List.replicate 32 b, by simp⟩

/-- Concrete fixture: an output. -/
def oA : CellOutput := ⟨100, 0, byteHash 4⟩

/-- Concrete fixture: a one-output transaction. -/
def txA : Transaction := ⟨0, [], [oA], byteHash 3⟩

/-- Concrete fixture: a single-transaction block at height 1. -/
def blkB1 : Block := ⟨⟨byteHash 0, 1, 0, 0, 0, 0, byteHash 2⟩, [txA], [], []⟩

/-- Concrete fixture: an uncle. -/
def uncA : UncleBlock := ⟨⟨byteHash 0, 9, 0, 0, 0, 0, byteHash 7⟩⟩

/-- Concrete fixture: a block at height 1 embedding `uncA`. -/
def blkBx : Block := ⟨⟨byteHash 0, 1, 0, 0, 0, 0, byteHash 5⟩, [], [uncA], []⟩

/-- Concrete fixture: a block at height 2 embedding the same uncle `uncA`. -/
def blkBy : Block := ⟨⟨byteHash 0, 2, 0, 0, 0, 0, byteHash 6⟩, [], [uncA], []⟩

/-- Concrete fixture: a store that already carries an uncle mark for
`uncA` before any attach. -/
def preMarkedStore : Store :=
  applyOp emptyStore (.put .UNCLES (hashKey uncA.hash) .empty)

/-- C5 scenario, step 1: fresh store after committing insert + attach of
`blkB1`. -/
def c5store1 : ChainKVStore :=
  ⟨commitOps (insert_block blkB1 ++ attach_block blkB1) emptyStore,
    ⟨4096, []⟩, ⟨128, []⟩⟩

/-- C5 scenario, step 2: the store after a `get_cell_output` read has
populated the cell-output cache. -/
def c5store2 : ChainKVStore := (get_cell_output c5store1 txA.hash 0).2

/-- C5 scenario, step 3: the store after a committed `detach_block` of
`blkB1` (the caches are untouched by a commit). -/
def c5store3 : ChainKVStore :=
  { c5store2 with db := commitOps (detach_block blkB1) c5store2.db }

/-- Concrete fixture: genesis transaction (cellbase, two outputs). -/
def gTx : Transaction := ⟨0, [], [⟨11, 0, byteHash 13⟩, ⟨22, 0, byteHash 14⟩], byteHash 11⟩

/-- Concrete fixture: genesis block at height 0. -/
def gBlk : Block := ⟨⟨byteHash 0, 0, 5, 0, 7, 0, byteHash 10⟩, [gTx], [], []⟩

/-- Concrete fixture: genesis epoch ext. -/
def gEpoch : EpochExt := ⟨0, byteHash 12, 3⟩

/-- Concrete fixture: a consensus descriptor. -/
def consensusW : Consensus := ⟨gBlk, gEpoch⟩

/-- The store produced by a successful `init` on a fresh store with the
fixture consensus. -/
def initStoreW : ChainKVStore :=
  match init (freshStore 4096 128) consensusW with
  | some cs => cs
  | none => freshStore 0 0

/-- The column/key addresses written for one transaction by `attach_block`
and deleted by `detach_block` (identical by construction). -/
def addrsTx (tx : Transaction) : List (Col × Bytes) :=
  (Col.TRANSACTION_ADDR, hashKey tx.hash) ::
    idxMap (fun j _ => (Col.CELL_META, cellKey tx.hash j)) 0 tx.outputs

/-- The per-transaction addresses of a whole block. -/
def txAddrsFlat (B : Block) : List (Col × Bytes) :=
  (B.transactions.map addrsTx).flatten

/-- The uncle-mark addresses of a block. -/
def uncleAddrs (B : Block) : List (Col × Bytes) :=
  B.uncles.map fun u => (Col.UNCLES, hashKey u.hash)

theorem leBytes_length (w : Nat) : ∀ n, (leBytes w n).length = w := by
  induction w with
  | zero => intro n; rfl
  | succ w ih => intro n; simp [leBytes, ih]

theorem hashKey_length (h : H256) : (hashKey h).length = 32 := h.2

theorem numberKey_ne_hashKey (n : Nat) (h : H256) : numberKey n ≠ hashKey h := by
  intro he
  have := congrArg List.length he
  rw [hashKey_length, numberKey, leBytes_length] at this
  omega

theorem leVal_leBytes (w : Nat) : ∀ n, leVal (leBytes w n) = n % 256 ^ w := by
  induction w with
  | zero => intro n; simp [leBytes, leVal, Nat.mod_one]
  | succ w ih =>
    intro n
    have hm : n % 256 ^ (w + 1) = n % 256 + 256 * (n / 256 % 256 ^ w) := by
      rw [pow_succ, mul_comm (256 ^ w) 256]
      exact Nat.mod_mul
    show n % 256 % 256 + 256 * leVal (leBytes w (n / 256)) = n % 256 ^ (w + 1)
    rw [ih (n / 256), Nat.mod_mod_of_dvd n (dvd_refl 256), hm]

theorem leBytes_inj_of_lt {w a b : Nat} (ha : a < 256 ^ w) (hb : b < 256 ^ w)
    (he : leBytes w a = leBytes w b) : a = b := by
  have := congrArg leVal he
  rw [leVal_leBytes, leVal_leBytes, Nat.mod_eq_of_lt ha, Nat.mod_eq_of_lt hb] at this
  exact this

theorem cellKey_inj {h h' : H256} {j j' : Nat} (hj : j < 2 ^ 32) (hj' : j' < 2 ^ 32)
    (he : cellKey h j = cellKey h' j') : h = h' ∧ j = j' := by
  have hlen : (hashKey h).length = (hashKey h').length := by
    rw [hashKey_length, hashKey_length]
  have := List.append_inj he hlen
  refine ⟨Subtype.ext this.1, ?_⟩
  have h32 : (2 : Nat) ^ 32 = 256 ^ 4 := by norm_num
  exact leBytes_inj_of_lt (h32 ▸ hj) (h32 ▸ hj') this.2

theorem cellKey_ne_of_hash_ne {h h' : H256} {j j' : Nat} (hne : h ≠ h') :
    cellKey h j ≠ cellKey h' j' := by
  intro he
  have hlen : (hashKey h).length = (hashKey h').length := by
    rw [hashKey_length, hashKey_length]
  exact hne (Subtype.ext (List.append_inj he hlen).1)

theorem applyOp_addr_ne (s : Store) (op : BatchOp) (c : Col) (k : Bytes)
    (h : opAddr op ≠ (c, k)) : applyOp s op c k = s c k := by
  cases op with
  | put c0 k0 v =>
    have : ¬(c0 = c ∧ k0 = k) := by
      intro hh; exact h (by simp [opAddr, hh.1, hh.2])
    simp [applyOp, this]
  | del c0 k0 =>
    have : ¬(c0 = c ∧ k0 = k) := by
      intro hh; exact h (by simp [opAddr, hh.1, hh.2])
    simp [applyOp, this]

theorem applyOp_put_self (s : Store) (c : Col) (k : Bytes) (v : Val) :
    applyOp s (.put c k v) c k = some v := by
  simp [applyOp]

theorem applyOp_del_self (s : Store) (c : Col) (k : Bytes) :
    applyOp s (.del c k) c k = none := by
  simp [applyOp]

theorem commitOps_nil (s : Store) : commitOps [] s = s := rfl

theorem commitOps_cons (op : BatchOp) (ops : List BatchOp) (s : Store) :
    commitOps (op :: ops) s = commitOps ops (applyOp s op) := rfl

theorem commitOps_append (l1 l2 : List BatchOp) (s : Store) :
    commitOps (l1 ++ l2) s = commitOps l2 (commitOps l1 s) := by
  simp [commitOps, List.foldl_append]

theorem commitOps_not_mem {ops : List BatchOp} {c : Col} {k : Bytes}
    (h : (c, k) ∉ ops.map opAddr) : ∀ s, commitOps ops s c k = s c k := by
  induction ops with
  | nil => intro s; rfl
  | cons op rest ih =>
    intro s
    simp only [List.map_cons, List.mem_cons] at h
    push_neg at h
    rw [commitOps_cons, ih h.2, applyOp_addr_ne _ _ _ _ (Ne.symm h.1)]

theorem commitOps_col_ne {ops : List BatchOp} {c : Col}
    (h : ∀ op ∈ ops, (opAddr op).1 ≠ c) :
    ∀ s k, commitOps ops s c k = s c k := by
  intro s k
  refine commitOps_not_mem ?_ s
  intro hmem
  rcases List.mem_map.1 hmem with ⟨op, hop, he⟩
  exact h op hop (by rw [he])

theorem commitOps_dels {ops : List BatchOp}
    (h : ∀ op ∈ ops, ∃ c0 k0, op = .del c0 k0) :
    ∀ s c k, commitOps ops s c k =
      if (c, k) ∈ ops.map opAddr then none else s c k := by
  induction ops with
  | nil => intro s c k; simp [commitOps_nil]
  | cons op rest ih =>
    intro s c k
    have hrest : ∀ op ∈ rest, ∃ c0 k0, op = .del c0 k0 := fun o ho => h o (by simp [ho])
    rcases h op (by simp) with ⟨c0, k0, rfl⟩
    rw [commitOps_cons, ih hrest]
    by_cases hmem : (c, k) ∈ rest.map opAddr
    · simp [hmem]
    · by_cases hck : ((c0, k0) : Col × Bytes) = (c, k)
      · have hc : c0 = c := congrArg Prod.fst hck
        have hk : k0 = k := congrArg Prod.snd hck
        subst hc; subst hk
        simp [hmem, applyOp_del_self, opAddr]
      · have hcond : ¬(((c, k) : Col × Bytes) = (c0, k0) ∨ (c, k) ∈ rest.map opAddr) := by
          rintro (h1 | h2)
          · exact hck h1.symm
          · exact hmem h2
        rw [applyOp_addr_ne _ _ _ _ (by simpa [opAddr] using hck)]
        simp only [List.map_cons, List.mem_cons, opAddr]
        rw [if_neg hcond, if_neg hmem]

theorem idxMap_mem {α β : Type} {f : Nat → α → β} :
    ∀ {n : Nat} {l : List α} {x : β}, x ∈ idxMap f n l →
      ∃ i a, l.get? i = some a ∧ x = f (n + i) a := by
  intro n l
  induction l generalizing n with
  | nil => intro x hx; simp [idxMap] at hx
  | cons a as ih =>
    intro x hx
    simp only [idxMap, List.mem_cons] at hx
    rcases hx with rfl | hx
    · exact ⟨0, a, rfl, by simp⟩
    · rcases ih hx with ⟨i, b, hget, he⟩
      exact ⟨i + 1, b, by simpa using hget, by rw [he]; ring_nf⟩

theorem map_idxMap {α β γ : Type} (g : β → γ) (f : Nat → α → β) :
    ∀ (n : Nat) (l : List α),
      (idxMap f n l).map g = idxMap (fun i a => g (f i a)) n l := by
  intro n l
  induction l generalizing n with
  | nil => rfl
  | cons a as ih => simp [idxMap, ih]

theorem idxMap_index_free {α β : Type} (g : α → β) :
    ∀ (n : Nat) (l : List α), idxMap (fun _ a => g a) n l = l.map g := by
  intro n l
  induction l generalizing n with
  | nil => rfl
  | cons a as ih => simp [idxMap, ih]

theorem get?_lt_length {α : Type} {l : List α} {i : Nat} {a : α}
    (h : l.get? i = some a) : i < l.length := by
  rcases List.get?_eq_some.1 h with ⟨hlt, _⟩
  exact hlt

theorem cellMetaOps_lookup (th : H256) (bn be : Nat) (cb : Bool) :
    ∀ (outs : List CellOutput) (m j : Nat) (out : CellOutput) (s : Store),
      outs.get? j = some out → m + outs.length ≤ 2 ^ 32 →
      commitOps (idxMap (cellMetaPut th bn be cb) m outs) s .CELL_META (cellKey th (m + j))
        = some (cellMetaVal th bn be cb (m + j) out) := by
  intro outs
  induction outs with
  | nil => intro m j out s hget; simp [List.get?] at hget
  | cons o os ih =>
    intro m j out s hget hbound
    cases j with
    | zero =>
      have ho : o = out := by simpa [List.get?] using hget
      rw [Nat.add_zero]
      rw [show idxMap (cellMetaPut th bn be cb) m (o :: os)
            = cellMetaPut th bn be cb m o :: idxMap (cellMetaPut th bn be cb) (m + 1) os from rfl]
      rw [commitOps_cons]
      have hnm : ((Col.CELL_META, cellKey th m) : Col × Bytes)
          ∉ (idxMap (cellMetaPut th bn be cb) (m + 1) os).map opAddr := by
        intro hmem
        rcases List.mem_map.1 hmem with ⟨op, hop, he⟩
        rcases idxMap_mem hop with ⟨i, b, hgetb, rfl⟩
        have hkeys : cellKey th (m + 1 + i) = cellKey th m := congrArg Prod.snd he
        have hi : i < os.length := get?_lt_length hgetb
        have hlen : m + (o :: os).length ≤ 2 ^ 32 := hbound
        simp only [List.length_cons] at hlen
        have h1 : m + 1 + i < 2 ^ 32 := by omega
        have h2 : m < 2 ^ 32 := by omega
        have := (cellKey_inj h1 h2 hkeys).2
        omega
      rw [commitOps_not_mem hnm, ← ho]
      exact applyOp_put_self _ _ _ _
    | succ j' =>
      have hget' : os.get? j' = some out := by simpa [List.get?] using hget
      have hbound' : m + 1 + os.length ≤ 2 ^ 32 := by
        simp only [List.length_cons] at hbound; omega
      have hidx : m + (j' + 1) = m + 1 + j' := by omega
      rw [hidx]
      rw [show idxMap (cellMetaPut th bn be cb) m (o :: os)
            = cellMetaPut th bn be cb m o :: idxMap (cellMetaPut th bn be cb) (m + 1) os from rfl]
      rw [commitOps_cons]
      exact ih (m + 1) j' out _ hget' hbound'

theorem attachTxOps_lookup_addr (bh : H256) (bn be : Nat) (i : Nat) (tx : Transaction)
    (s : Store) :
    commitOps (attachTxOps bh bn be i tx) s .TRANSACTION_ADDR (hashKey tx.hash)
      = some (.txAddr ⟨bh, i⟩) := by
  rw [attachTxOps, commitOps_cons]
  have hcol : ∀ op ∈ idxMap (cellMetaPut tx.hash bn be (i == 0)) 0 tx.outputs,
      (opAddr op).1 ≠ Col.TRANSACTION_ADDR := by
    intro op hop
    rcases idxMap_mem hop with ⟨j, b, _, rfl⟩
    simp [cellMetaPut, opAddr]
  rw [commitOps_col_ne hcol]
  exact applyOp_put_self _ _ _ _

theorem attachTxOps_lookup_cellmeta (bh : H256) (bn be : Nat) (i : Nat)
    (tx : Transaction) (s : Store) (j : Nat) (out : CellOutput)
    (hget : tx.outputs.get? j = some out) (hbound : tx.outputs.length ≤ 2 ^ 32) :
    commitOps (attachTxOps bh bn be i tx) s .CELL_META (cellKey tx.hash j)
      = some (cellMetaVal tx.hash bn be (i == 0) j out) := by
  rw [attachTxOps, commitOps_cons]
  have := cellMetaOps_lookup tx.hash bn be (i == 0) tx.outputs 0 j out
    (applyOp s (.put .TRANSACTION_ADDR (hashKey tx.hash) (.txAddr ⟨bh, i⟩)))
    hget (by omega)
  simpa using this

theorem attachTxOps_addrs {bh : H256} {bn be : Nat} {i : Nat} {tx : Transaction}
    {op : BatchOp} (h : op ∈ attachTxOps bh bn be i tx) :
    opAddr op = (.TRANSACTION_ADDR, hashKey tx.hash)
      ∨ ∃ j, j < tx.outputs.length ∧ opAddr op = (.CELL_META, cellKey tx.hash j) := by
  rw [attachTxOps] at h
  rcases List.mem_cons.1 h with rfl | h
  · left; rfl
  · rcases idxMap_mem h with ⟨j, b, hget, rfl⟩
    right
    refine ⟨0 + j, ?_, rfl⟩
    simpa using get?_lt_length hget

theorem hashKey_inj {h h' : H256} (he : hashKey h = hashKey h') : h = h' :=
  Subtype.ext he

theorem attachFlat_not_mem_taddr {bh : H256} {bn be : Nat} {ts : List Transaction}
    {n : Nat} {h : H256} (hh : h ∉ ts.map Transaction.hash) :
    ((Col.TRANSACTION_ADDR, hashKey h) : Col × Bytes)
      ∉ ((idxMap (attachTxOps bh bn be) n ts).flatten).map opAddr := by
  intro hmem
  rcases List.mem_map.1 hmem with ⟨op, hop, he⟩
  rcases List.mem_flatten.1 hop with ⟨sub, hsub, hopsub⟩
  rcases idxMap_mem hsub with ⟨i, t', hget, rfl⟩
  rcases attachTxOps_addrs hopsub with h1 | ⟨j, _, h2⟩
  · rw [h1] at he
    have : t'.hash = h := hashKey_inj (congrArg Prod.snd he)
    exact hh (this ▸ List.mem_map_of_mem Transaction.hash (List.get?_mem hget))
  · rw [h2] at he
    exact absurd (congrArg Prod.fst he) (by simp)

theorem attachFlat_not_mem_cellmeta {bh : H256} {bn be : Nat} {ts : List Transaction}
    {n : Nat} {h : H256} {j : Nat} (hh : h ∉ ts.map Transaction.hash) :
    ((Col.CELL_META, cellKey h j) : Col × Bytes)
      ∉ ((idxMap (attachTxOps bh bn be) n ts).flatten).map opAddr := by
  intro hmem
  rcases List.mem_map.1 hmem with ⟨op, hop, he⟩
  rcases List.mem_flatten.1 hop with ⟨sub, hsub, hopsub⟩
  rcases idxMap_mem hsub with ⟨i, t', hget, rfl⟩
  rcases attachTxOps_addrs hopsub with h1 | ⟨j', _, h2⟩
  · rw [h1] at he
    exact absurd (congrArg Prod.fst he) (by simp)
  · rw [h2] at he
    have hkeys : cellKey t'.hash j' = cellKey h j := congrArg Prod.snd he
    have : t'.hash ≠ h := by
      intro hcontra
      exact hh (hcontra ▸ List.mem_map_of_mem Transaction.hash (List.get?_mem hget))
    exact cellKey_ne_of_hash_ne this hkeys

theorem attachFlat_lookup_addr (bh : H256) (bn be : Nat) :
    ∀ (txs : List Transaction) (n : Nat) (s : Store) (i : Nat) (tx : Transaction),
      (txs.map Transaction.hash).Nodup → txs.get? i = some tx →
      commitOps ((idxMap (attachTxOps bh bn be) n txs).flatten) s
          .TRANSACTION_ADDR (hashKey tx.hash)
        = some (.txAddr ⟨bh, n + i⟩) := by
  intro txs
  induction txs with
  | nil => intro n s i tx _ hget; simp [List.get?] at hget
  | cons t ts ih =>
    intro n s i tx hnodup hget
    have hn : t.hash ∉ ts.map Transaction.hash ∧ (ts.map Transaction.hash).Nodup := by
      rw [List.map_cons, List.nodup_cons] at hnodup
      exact hnodup
    rw [show (idxMap (attachTxOps bh bn be) n (t :: ts)).flatten
          = attachTxOps bh bn be n t ++ (idxMap (attachTxOps bh bn be) (n + 1) ts).flatten from rfl]
    rw [commitOps_append]
    cases i with
    | zero =>
      have ht : t = tx := by simpa [List.get?] using hget
      subst ht
      rw [Nat.add_zero, commitOps_not_mem (attachFlat_not_mem_taddr hn.1)]
      exact attachTxOps_lookup_addr bh bn be n t _
    | succ i' =>
      have hget' : ts.get? i' = some tx := by simpa [List.get?] using hget
      have : n + (i' + 1) = n + 1 + i' := by omega
      rw [this]
      exact ih (n + 1) _ i' tx hn.2 hget'

theorem attachFlat_lookup_cellmeta (bh : H256) (bn be : Nat) :
    ∀ (txs : List Transaction) (n : Nat) (s : Store) (i : Nat) (tx : Transaction)
      (j : Nat) (out : CellOutput),
      (txs.map Transaction.hash).Nodup → txs.get? i = some tx →
      tx.outputs.get? j = some out → tx.outputs.length ≤ 2 ^ 32 →
      commitOps ((idxMap (attachTxOps bh bn be) n txs).flatten) s
          .CELL_META (cellKey tx.hash j)
        = some (cellMetaVal tx.hash bn be ((n + i) == 0) j out) := by
  intro txs
  induction txs with
  | nil => intro n s i tx j out _ hget; simp [List.get?] at hget
  | cons t ts ih =>
    intro n s i tx j out hnodup hget hgetout hbound
    have hn : t.hash ∉ ts.map Transaction.hash ∧ (ts.map Transaction.hash).Nodup := by
      rw [List.map_cons, List.nodup_cons] at hnodup
      exact hnodup
    rw [show (idxMap (attachTxOps bh bn be) n (t :: ts)).flatten
          = attachTxOps bh bn be n t ++ (idxMap (attachTxOps bh bn be) (n + 1) ts).flatten from rfl]
    rw [commitOps_append]
    cases i with
    | zero =>
      have ht : t = tx := by simpa [List.get?] using hget
      subst ht
      rw [Nat.add_zero, commitOps_not_mem (attachFlat_not_mem_cellmeta hn.1)]
      exact attachTxOps_lookup_cellmeta bh bn be n t _ j out hgetout hbound
    | succ i' =>
      have hget' : ts.get? i' = some tx := by simpa [List.get?] using hget
      have : n + (i' + 1) = n + 1 + i' := by omega
      rw [this]
      exact ih (n + 1) _ i' tx j out hn.2 hget' hgetout hbound

theorem const_puts_lookup {α : Type} (key : α → Bytes) (c : Col) (v : Val) :
    ∀ (l : List α) (s : Store) (k : Bytes), (∃ a ∈ l, key a = k) →
      commitOps (l.map fun a => .put c (key a) v) s c k = some v := by
  intro l
  induction l with
  | nil => intro s k h; simp at h
  | cons a as ih =>
    intro s k h
    rw [List.map_cons, commitOps_cons]
    by_cases hex : ∃ b ∈ as, key b = k
    · exact ih _ k hex
    · have hka : key a = k := by
        rcases h with ⟨a0, ha0, hk⟩
        rcases List.mem_cons.1 ha0 with rfl | ha0
        · exact hk
        · exact absurd ⟨a0, ha0, hk⟩ hex
      have hnm : ((c, k) : Col × Bytes) ∉ (as.map fun b => BatchOp.put c (key b) v).map opAddr := by
        intro hmem
        rcases List.mem_map.1 hmem with ⟨op, hop, he⟩
        rcases List.mem_map.1 hop with ⟨b, hb, rfl⟩
        exact hex ⟨b, hb, congrArg Prod.snd he⟩
      rw [commitOps_not_mem hnm, ← hka]
      exact applyOp_put_self _ _ _ _

theorem commitOps_singleton (op : BatchOp) (s : Store) :
    commitOps [op] s = applyOp s op := rfl

theorem attachFlat_cols {bh : H256} {bn be n : Nat} {txs : List Transaction} :
    ∀ op ∈ (idxMap (attachTxOps bh bn be) n txs).flatten,
      (opAddr op).1 = Col.TRANSACTION_ADDR ∨ (opAddr op).1 = Col.CELL_META := by
  intro op hop
  rcases List.mem_flatten.1 hop with ⟨sub, hsub, hopsub⟩
  rcases idxMap_mem hsub with ⟨i, t', _, rfl⟩
  rcases attachTxOps_addrs hopsub with h1 | ⟨j, _, h2⟩
  · left; rw [h1]
  · right; rw [h2]

theorem attach_block_eq (B : Block) :
    attach_block B
      = ((idxMap (attachTxOps B.header.hash B.header.number B.header.epoch)
            0 B.transactions).flatten
         ++ (.put .INDEX (numberKey B.header.number) (.hash B.header.hash)
              :: B.uncles.map fun u => .put .UNCLES (hashKey u.hash) .empty))
        ++ [.put .INDEX (hashKey B.header.hash) (.number B.header.number)] := by
  rw [attach_block]

theorem attach_lookup_index_number (B : Block) (s : Store) :
    commitOps (attach_block B) s .INDEX (numberKey B.header.number)
      = some (.hash B.header.hash) := by
  rw [attach_block_eq, commitOps_append, commitOps_append, commitOps_singleton]
  rw [applyOp_addr_ne _ _ _ _ (by
    intro he
    exact numberKey_ne_hashKey B.header.number B.header.hash
      ((congrArg Prod.snd he).symm))]
  rw [commitOps_cons]
  rw [commitOps_col_ne (by
    intro op hop
    rcases List.mem_map.1 hop with ⟨u, _, rfl⟩
    simp [opAddr])]
  exact applyOp_put_self _ _ _ _

theorem attach_lookup_index_hash (B : Block) (s : Store) :
    commitOps (attach_block B) s .INDEX (hashKey B.header.hash)
      = some (.number B.header.number) := by
  rw [attach_block_eq, commitOps_append, commitOps_append, commitOps_singleton]
  exact applyOp_put_self _ _ _ _

theorem attach_lookup_uncle (B : Block) (s : Store) (u : UncleBlock)
    (hu : u ∈ B.uncles) :
    commitOps (attach_block B) s .UNCLES (hashKey u.hash) = some .empty := by
  rw [attach_block_eq, commitOps_append, commitOps_append, commitOps_singleton]
  rw [applyOp_addr_ne _ _ _ _ (by
    intro he
    exact absurd (congrArg Prod.fst he) (by simp [opAddr]))]
  rw [commitOps_cons]
  exact const_puts_lookup (fun u0 : UncleBlock => hashKey u0.hash) .UNCLES .empty
    B.uncles _ _ ⟨u, hu, rfl⟩

theorem attach_lookup_taddr (B : Block) (s : Store) (i : Nat) (tx : Transaction)
    (hnodup : (B.transactions.map Transaction.hash).Nodup)
    (hget : B.transactions.get? i = some tx) :
    commitOps (attach_block B) s .TRANSACTION_ADDR (hashKey tx.hash)
      = some (.txAddr ⟨B.header.hash, i⟩) := by
  rw [attach_block_eq, commitOps_append, commitOps_append, commitOps_singleton]
  rw [applyOp_addr_ne _ _ _ _ (by
    intro he
    exact absurd (congrArg Prod.fst he) (by simp [opAddr]))]
  rw [commitOps_cons]
  rw [commitOps_col_ne (by
    intro op hop
    rcases List.mem_map.1 hop with ⟨u, _, rfl⟩
    simp [opAddr])]
  rw [applyOp_addr_ne _ _ _ _ (by
    intro he
    exact absurd (congrArg Prod.fst he) (by simp [opAddr]))]
  have := attachFlat_lookup_addr B.header.hash B.header.number B.header.epoch
    B.transactions 0 s i tx hnodup hget
  simpa using this

theorem attach_lookup_cellmeta (B : Block) (s : Store) (i : Nat) (tx : Transaction)
    (j : Nat) (out : CellOutput)
    (hnodup : (B.transactions.map Transaction.hash).Nodup)
    (hget : B.transactions.get? i = some tx)
    (hgetout : tx.outputs.get? j = some out)
    (hbound : tx.outputs.length ≤ 2 ^ 32) :
    commitOps (attach_block B) s .CELL_META (cellKey tx.hash j)
      = some (cellMetaVal tx.hash B.header.number B.header.epoch (i == 0) j out) := by
  rw [attach_block_eq, commitOps_append, commitOps_append, commitOps_singleton]
  rw [applyOp_addr_ne _ _ _ _ (by
    intro he
    exact absurd (congrArg Prod.fst he) (by simp [opAddr]))]
  rw [commitOps_cons]
  rw [commitOps_col_ne (by
    intro op hop
    rcases List.mem_map.1 hop with ⟨u, _, rfl⟩
    simp [opAddr])]
  rw [applyOp_addr_ne _ _ _ _ (by
    intro he
    exact absurd (congrArg Prod.fst he) (by simp [opAddr]))]
  have := attachFlat_lookup_cellmeta B.header.hash B.header.number B.header.epoch
    B.transactions 0 s i tx j out hnodup hget hgetout hbound
  simpa using this

theorem attach_block_cols {B : Block} :
    ∀ op ∈ attach_block B,
      (opAddr op).1 = Col.TRANSACTION_ADDR ∨ (opAddr op).1 = Col.CELL_META
        ∨ (opAddr op).1 = Col.INDEX ∨ (opAddr op).1 = Col.UNCLES := by
  intro op hop
  rw [attach_block_eq] at hop
  rcases List.mem_append.1 hop with hop | hop
  · rcases List.mem_append.1 hop with hop | hop
    · rcases attachFlat_cols op hop with h | h
      · exact Or.inl h
      · exact Or.inr (Or.inl h)
    · rcases List.mem_cons.1 hop with rfl | hop
      · exact Or.inr (Or.inr (Or.inl rfl))
      · rcases List.mem_map.1 hop with ⟨u, _, rfl⟩
        exact Or.inr (Or.inr (Or.inr rfl))
  · rcases List.mem_cons.1 hop with rfl | hop
    · exact Or.inr (Or.inr (Or.inl rfl))
    · simp at hop

theorem detachTxOps_dels {tx : Transaction} :
    ∀ op ∈ detachTxOps tx, ∃ c k, op = BatchOp.del c k := by
  intro op hop
  rw [detachTxOps] at hop
  rcases List.mem_cons.1 hop with rfl | hop
  · exact ⟨_, _, rfl⟩
  · rcases idxMap_mem hop with ⟨j, b, _, rfl⟩
    exact ⟨_, _, rfl⟩

theorem detach_block_dels {B : Block} :
    ∀ op ∈ detach_block B, ∃ c k, op = BatchOp.del c k := by
  intro op hop
  rw [detach_block] at hop
  rcases List.mem_append.1 hop with hop | hop
  · rcases List.mem_append.1 hop with hop | hop
    · rcases List.mem_flatten.1 hop with ⟨sub, hsub, hopsub⟩
      rcases List.mem_map.1 hsub with ⟨tx, _, rfl⟩
      exact detachTxOps_dels op hopsub
    · rcases List.mem_map.1 hop with ⟨u, _, rfl⟩
      exact ⟨_, _, rfl⟩
  · rcases List.mem_cons.1 hop with rfl | hop
    · exact ⟨_, _, rfl⟩
    · rcases List.mem_cons.1 hop with rfl | hop
      · exact ⟨_, _, rfl⟩
      · simp at hop

theorem map_opAddr_attachTxOps (bh : H256) (bn be i : Nat) (tx : Transaction) :
    (attachTxOps bh bn be i tx).map opAddr = addrsTx tx := by
  rw [attachTxOps, List.map_cons, map_idxMap]
  rfl

theorem map_opAddr_detachTxOps (tx : Transaction) :
    (detachTxOps tx).map opAddr = addrsTx tx := by
  rw [detachTxOps, List.map_cons, map_idxMap]
  rfl

theorem attach_map_opAddr (B : Block) :
    (attach_block B).map opAddr
      = (txAddrsFlat B
          ++ ((Col.INDEX, numberKey B.header.number) :: uncleAddrs B))
        ++ [(Col.INDEX, hashKey B.header.hash)] := by
  rw [attach_block_eq]
  simp only [List.map_append, List.map_cons, List.map_flatten, map_idxMap,
    map_opAddr_attachTxOps, idxMap_index_free, List.map_map]
  rfl

theorem detach_map_opAddr (B : Block) :
    (detach_block B).map opAddr
      = (txAddrsFlat B ++ uncleAddrs B)
        ++ [(Col.INDEX, numberKey B.header.number),
            (Col.INDEX, hashKey B.header.hash)] := by
  rw [detach_block]
  simp only [List.map_append, List.map_cons, List.map_flatten, List.map_map,
    Function.comp_def, map_opAddr_detachTxOps]
  rfl

theorem attach_addrs_sub_detach (B : Block) :
    ∀ a ∈ (attach_block B).map opAddr, a ∈ (detach_block B).map opAddr := by
  intro a ha
  rw [attach_map_opAddr] at ha
  rw [detach_map_opAddr]
  simp only [List.mem_append, List.mem_cons, List.not_mem_nil, or_false] at ha ⊢
  tauto

theorem attach_detach_restore (B : Block) (s : Store)
    (hpre : ∀ a ∈ (detach_block B).map opAddr, s a.1 a.2 = none) :
    commitOps (detach_block B) (commitOps (attach_block B) s) = s := by
  funext c k
  rw [commitOps_dels detach_block_dels]
  by_cases hmem : ((c, k) : Col × Bytes) ∈ (detach_block B).map opAddr
  · rw [if_pos hmem, (hpre (c, k) hmem).symm]
  · rw [if_neg hmem]
    have hnm : ((c, k) : Col × Bytes) ∉ (attach_block B).map opAddr :=
      fun hc => hmem (attach_addrs_sub_detach B _ hc)
    exact commitOps_not_mem hnm _

theorem detach_lookup_uncle (B : Block) (s : Store) (u : UncleBlock)
    (hu : u ∈ B.uncles) :
    commitOps (detach_block B) s .UNCLES (hashKey u.hash) = none := by
  rw [commitOps_dels detach_block_dels]
  rw [if_pos ?_]
  rw [detach_map_opAddr]
  refine List.mem_append.2 (Or.inl (List.mem_append.2 (Or.inr ?_)))
  exact List.mem_map.2 ⟨u, hu, rfl⟩

theorem attach_other_col (B : Block) {c : Col}
    (hc1 : c ≠ Col.TRANSACTION_ADDR) (hc2 : c ≠ Col.CELL_META)
    (hc3 : c ≠ Col.INDEX) (hc4 : c ≠ Col.UNCLES) :
    ∀ (s : Store) (k : Bytes), commitOps (attach_block B) s c k = s c k := by
  intro s k
  refine commitOps_col_ne ?_ s k
  intro op hop
  rcases attach_block_cols op hop with h | h | h | h
  · rw [h]; exact fun he => hc1 he.symm
  · rw [h]; exact fun he => hc2 he.symm
  · rw [h]; exact fun he => hc3 he.symm
  · rw [h]; exact fun he => hc4 he.symm

theorem insert_lookup_header (B : Block) (s : Store) :
    commitOps (insert_block B) s .BLOCK_HEADER (hashKey B.header.hash)
      = some (.header B.header) := by
  simp [insert_block, commitOps, applyOp]

theorem insert_lookup_uncles (B : Block) (s : Store) :
    commitOps (insert_block B) s .BLOCK_UNCLE (hashKey B.header.hash)
      = some (.uncles B.uncles) := by
  simp [insert_block, commitOps, applyOp]

theorem insert_lookup_proposals (B : Block) (s : Store) :
    commitOps (insert_block B) s .BLOCK_PROPOSAL_IDS (hashKey B.header.hash)
      = some (.proposals B.proposals) := by
  simp [insert_block, commitOps, applyOp]

theorem insert_lookup_body (B : Block) (s : Store) :
    commitOps (insert_block B) s .BLOCK_BODY (hashKey B.header.hash)
      = some (.body B.transactions) := by
  simp [insert_block, commitOps, applyOp]

theorem insert_other_col (B : Block) {c : Col}
    (hc1 : c ≠ Col.BLOCK_HEADER) (hc2 : c ≠ Col.BLOCK_UNCLE)
    (hc3 : c ≠ Col.BLOCK_PROPOSAL_IDS) (hc4 : c ≠ Col.BLOCK_BODY) :
    ∀ (s : Store) (k : Bytes), commitOps (insert_block B) s c k = s c k := by
  intro s k
  refine commitOps_col_ne ?_ s k
  intro op hop
  rw [insert_block] at hop
  rcases List.mem_cons.1 hop with rfl | hop
  · exact fun he => hc1 he.symm
  · rcases List.mem_cons.1 hop with rfl | hop
    · exact fun he => hc2 he.symm
    · rcases List.mem_cons.1 hop with rfl | hop
      · exact fun he => hc3 he.symm
      · rcases List.mem_cons.1 hop with rfl | hop
        · exact fun he => hc4 he.symm
        · simp at hop

theorem insert_attach_body (B : Block) (s : Store) :
    commitOps (insert_block B ++ attach_block B) s .BLOCK_BODY (hashKey B.header.hash)
      = some (.body B.transactions) := by
  rw [commitOps_append]
  rw [attach_other_col B (by simp) (by simp) (by simp) (by simp)]
  exact insert_lookup_body B s

theorem get_refresh_none {K V : Type} [DecidableEq K] (c : LruCache K V) (k : K)
    (hc : c.lookup k = none) : c.get_refresh k = (none, c) := by
  unfold LruCache.lookup at hc
  unfold LruCache.get_refresh
  cases hfind : c.items.find? fun p => decide (p.1 = k) with
  | none => rfl
  | some p => rw [hfind] at hc; simp at hc

theorem issueAll_spec : ∀ (cmds : List BatchCmd) (sys : SysState),
    (issueAll sys cmds).store = sys.store
    ∧ (issueAll sys cmds).pending = sys.pending ++ (cmds.map cmdOps).flatten := by
  intro cmds
  induction cmds with
  | nil => intro sys; simp [issueAll]
  | cons c cs ih =>
    intro sys
    have h := ih (issue sys c)
    have hstep : issueAll sys (c :: cs) = issueAll (issue sys c) cs := rfl
    rw [hstep]
    refine ⟨h.1, ?_⟩
    rw [h.2]
    simp [issue, List.append_assoc]

/-- C7: issuing any sequence of `StoreBatch` mutations on an open batch
without committing leaves the observable store unchanged (same backend state,
same results for every getter); only `commit` applies the accumulated
mutations, all at once and in issue order. -/
theorem c7_uncommitted_batch_invisible (sys : SysState) (cmds : List BatchCmd) :
    (issueAll sys cmds).store = sys.store
    ∧ (∀ n, get_block_hash (issueAll sys cmds).store.db n
          = get_block_hash sys.store.db n)
    ∧ (∀ h, get_block_header (issueAll sys cmds).store h
          = get_block_header sys.store h)
    ∧ (∀ h i, get_cell_output (issueAll sys cmds).store h i
          = get_cell_output sys.store h i)
    ∧ (∀ h, get_transaction (issueAll sys cmds).store.db h
          = get_transaction sys.store.db h)
    ∧ (commitSys (issueAll sys cmds)).store.db
        = commitOps (sys.pending ++ (cmds.map cmdOps).flatten) sys.store.db := by
  have h := issueAll_spec cmds sys
  refine ⟨h.1, fun n => by rw [h.1], fun h0 => by rw [h.1], fun h0 i => by rw [h.1],
    fun h0 => by rw [h.1], ?_⟩
  show commitOps (issueAll sys cmds).pending (issueAll sys cmds).store.db = _
  rw [h.1, h.2]

/-- C8: after a committed `insert_epoch_ext(h, e)`, `get_epoch_ext(h)`
returns `e` and `get_epoch_index(e.number)` returns `h` (the reverse
`epoch_number → anchor` entry is also written). -/
theorem c8_insert_epoch_ext_roundtrip (s : Store) (h : H256) (e : EpochExt) :
    get_epoch_ext (commitOps (insert_epoch_ext h e) s) h = some e
    ∧ get_epoch_index (commitOps (insert_epoch_ext h e) s) e.number = some h := by
  constructor
  · have h1 : commitOps (insert_epoch_ext h e) s .EPOCH (hashKey h)
        = some (.epochExt e) := by
      simp [insert_epoch_ext, commitOps, applyOp, numberKey_ne_hashKey e.number h]
    simp [get_epoch_ext, h1]
  · have h2 : commitOps (insert_epoch_ext h e) s .EPOCH (numberKey e.number)
        = some (.hash h) := by
      simp [insert_epoch_ext, commitOps, applyOp]
    simp [get_epoch_index, h2]

/-- C9: `get_cellbase` returns the first transaction of a stored non-empty
body (the "cellbase address should exist" panic is unreachable there), and
returns `ok none` without panicking when no body is stored under the hash. -/
theorem c9_get_cellbase_safe (s : Store) (h : H256) (t : Transaction)
    (rest : List Transaction) :
    (s .BLOCK_BODY (hashKey h) = some (.body (t :: rest)) →
      get_cellbase s h = Except.ok (some t))
    ∧ (s .BLOCK_BODY (hashKey h) = none → get_cellbase s h = Except.ok none) := by
  constructor <;> intro hb <;> simp [get_cellbase, hb, List.get?]

/-- C9 witness: a store holding a one-transaction body under one hash and
nothing under another. -/
theorem c9_get_cellbase_safe_witness :
    get_cellbase (applyOp emptyStore
        (.put .BLOCK_BODY (hashKey (byteHash 1)) (.body [txA]))) (byteHash 1)
      = Except.ok (some txA)
    ∧ get_cellbase emptyStore (byteHash 2) = Except.ok none :=
  ⟨(c9_get_cellbase_safe _ (byteHash 1) txA []).1 (by decide),
   (c9_get_cellbase_safe emptyStore (byteHash 2) txA []).2 rfl⟩

/-- C10: in the dual-purpose INDEX and EPOCH columns the two key directions
can never collide: an 8-byte little-endian number key is never equal to a
32-byte hash key, so any sequence of operations whose keys are all 32 bytes
long leaves every number-direction read (`get_block_hash`,
`get_epoch_index`) unchanged, and any sequence whose keys are all 8 bytes
long leaves every hash-direction read (`get_block_number`, `get_epoch_ext`)
unchanged. -/
theorem c10_key_directions_disjoint :
    (∀ (n : Nat) (h : H256), numberKey n ≠ hashKey h)
    ∧ (∀ (s : Store) (ops : List BatchOp) (n : Nat),
        (∀ op ∈ ops, ((opAddr op).2).length = 32) →
        get_block_hash (commitOps ops s) n = get_block_hash s n
        ∧ get_epoch_index (commitOps ops s) n = get_epoch_index s n)
    ∧ (∀ (s : Store) (ops : List BatchOp) (h : H256),
        (∀ op ∈ ops, ((opAddr op).2).length = 8) →
        get_block_number (commitOps ops s) h = get_block_number s h
        ∧ get_epoch_ext (commitOps ops s) h = get_epoch_ext s h) := by
  refine ⟨numberKey_ne_hashKey, ?_, ?_⟩
  · intro s ops n hlen
    have hbase : ∀ c : Col, commitOps ops s c (numberKey n) = s c (numberKey n) := by
      intro c
      refine commitOps_not_mem ?_ s
      intro hmem
      rcases List.mem_map.1 hmem with ⟨op, hop, he⟩
      have h1 := hlen op hop
      have h2 : ((opAddr op).2).length = 8 := by
        rw [congrArg Prod.snd he]
        exact leBytes_length 8 n
      omega
    exact ⟨by simp [get_block_hash, hbase], by simp [get_epoch_index, hbase]⟩
  · intro s ops h hlen
    have hbase : ∀ c : Col, commitOps ops s c (hashKey h) = s c (hashKey h) := by
      intro c
      refine commitOps_not_mem ?_ s
      intro hmem
      rcases List.mem_map.1 hmem with ⟨op, hop, he⟩
      have h1 := hlen op hop
      have h2 : ((opAddr op).2).length = 32 := by
        rw [congrArg Prod.snd he]
        exact hashKey_length h
      omega
    exact ⟨by simp [get_block_number, hbase], by simp [get_epoch_ext, hbase]⟩

/-- C10 witness: a hash-direction write leaves a number-direction read
unchanged, at concrete inputs. -/
theorem c10_key_directions_disjoint_witness :
    get_block_hash (commitOps [.put .INDEX (hashKey (byteHash 1)) (.number 5)]
        emptyStore) 0
      = get_block_hash emptyStore 0 :=
  (c10_key_directions_disjoint.2.1 emptyStore
    [.put .INDEX (hashKey (byteHash 1)) (.number 5)] 0 (by decide)).1

/-- C2: after `insert_block(B)` is committed (and the header cache holds no
stale entry for `B.hash`), the header, body, uncles and proposals reads each
return the corresponding component of `B`, and `get_block(B.hash)` returns a
block equal to `B`. -/
theorem c2_insert_block_roundtrip (cs : ChainKVStore) (B : Block)
    (hcache : cs.header_cache.lookup B.header.hash = none) :
    (get_block_header ⟨commitOps (insert_block B) cs.db, cs.header_cache,
        cs.cell_output_cache⟩ B.header.hash).1 = some B.header
    ∧ get_block_body (commitOps (insert_block B) cs.db) B.header.hash
        = some B.transactions
    ∧ get_block_uncles (commitOps (insert_block B) cs.db) B.header.hash
        = some B.uncles
    ∧ get_block_proposal_txs_ids (commitOps (insert_block B) cs.db) B.header.hash
        = some B.proposals
    ∧ (get_block ⟨commitOps (insert_block B) cs.db, cs.header_cache,
        cs.cell_output_cache⟩ B.header.hash).1 = some B := by
  have hgr : cs.header_cache.get_refresh B.header.hash = (none, cs.header_cache) :=
    get_refresh_none _ _ hcache
  have hheader := insert_lookup_header B cs.db
  have hbody := insert_lookup_body B cs.db
  have huncles := insert_lookup_uncles B cs.db
  have hprops := insert_lookup_proposals B cs.db
  have huh : uncached_get_block_header (commitOps (insert_block B) cs.db)
      B.header.hash = some B.header := by
    simp [uncached_get_block_header, hheader]
  refine ⟨?_, ?_, ?_, ?_, ?_⟩
  · simp [get_block_header, hgr, huh]
  · simp [get_block_body, hbody]
  · simp [get_block_uncles, huncles]
  · simp [get_block_proposal_txs_ids, hprops]
  · simp [get_block, get_block_header, hgr, huh, get_block_body, hbody,
      get_block_uncles, huncles, get_block_proposal_txs_ids, hprops]

/-- C2 witness: the fixture block round-trips through a fresh store. -/
theorem c2_insert_block_roundtrip_witness :
    (get_block ⟨commitOps (insert_block blkB1) (freshStore 4096 128).db,
        (freshStore 4096 128).header_cache,
        (freshStore 4096 128).cell_output_cache⟩ blkB1.header.hash).1
      = some blkB1 :=
  (c2_insert_block_roundtrip (freshStore 4096 128) blkB1 rfl).2.2.2.2

/-- C1 counterexample: committing a batch that only issues `attach_block(B)`
(no `insert_block`) leaves the body column empty, so `get_transaction` on a
transaction of `B` returns `none` instead of the transaction, although the
transaction is at position 0 of `B`. -/
theorem c1_counterexample :
    get_transaction (commitOps (attach_block blkB1) emptyStore) txA.hash = none
    ∧ blkB1.transactions.get? 0 = some txA := by
  exact ⟨by decide, rfl⟩

/-- C1 (amended): for a block whose transactions have pairwise distinct
hashes and at most `2^32` outputs each, after a committed batch carrying
`insert_block(B)` and `attach_block(B)`: `get_block_hash(B.number) = B.hash`,
`get_block_number(B.hash) = B.number`; each transaction resolves to address
`(B.hash, i)` and to `(tx_i, B.hash)`; and each output has a cell-meta and a
cell-output present. -/
theorem c1_attach_block_reads (cs : ChainKVStore) (B : Block) (s1 : Store)
    (hnodup : (B.transactions.map Transaction.hash).Nodup)
    (hbound : ∀ tx ∈ B.transactions, tx.outputs.length ≤ 2 ^ 32)
    (hs1 : s1 = commitOps (insert_block B ++ attach_block B) cs.db) :
    get_block_hash s1 B.header.number = some B.header.hash
    ∧ get_block_number s1 B.header.hash = some B.header.number
    ∧ ∀ i tx, B.transactions.get? i = some tx →
        get_transaction_address s1 tx.hash = some ⟨B.header.hash, i⟩
        ∧ get_transaction s1 tx.hash = some (tx, B.header.hash)
        ∧ ∀ j out, tx.outputs.get? j = some out →
            (get_cell_meta s1 tx.hash j).isSome
            ∧ (get_cell_output ⟨s1, cs.header_cache, cs.cell_output_cache⟩
                tx.hash j).1.isSome := by
  subst hs1
  refine ⟨?_, ?_, ?_⟩
  · simp [get_block_hash, commitOps_append, attach_lookup_index_number]
  · simp [get_block_number, commitOps_append, attach_lookup_index_hash]
  · intro i tx hget
    have haddr : get_transaction_address
        (commitOps (insert_block B ++ attach_block B) cs.db) tx.hash
        = some ⟨B.header.hash, i⟩ := by
      simp [get_transaction_address, commitOps_append,
        attach_lookup_taddr B _ i tx hnodup hget]
    have hgbody : get_block_body
        (commitOps (insert_block B ++ attach_block B) cs.db) B.header.hash
        = some B.transactions := by
      simp [get_block_body, insert_attach_body]
    have hget2 : B.transactions[i]? = some tx := by
      rw [← List.get?_eq_getElem?]; exact hget
    refine ⟨haddr, ?_, ?_⟩
    · simp [get_transaction, haddr, hgbody, hget2]
    · intro j out hgetout
      have hgetout2 : tx.outputs[j]? = some out := by
        rw [← List.get?_eq_getElem?]; exact hgetout
      have hcm := attach_lookup_cellmeta B (commitOps (insert_block B) cs.db)
        i tx j out hnodup hget hgetout (hbound tx (List.get?_mem hget))
      constructor
      · simp [get_cell_meta, commitOps_append, hcm, cellMetaVal]
      · have huco : uncached_get_cell_output
            (commitOps (insert_block B ++ attach_block B) cs.db) tx.hash j
            = some out := by
          simp [uncached_get_cell_output, haddr, hgbody, hget2, hgetout2]
        rcases hr : cs.cell_output_cache.get_refresh (tx.hash, j) with ⟨o?, cc⟩
        cases o? with
        | some o => simp [get_cell_output, hr]
        | none => simp [get_cell_output, hr, huco]

/-- C1 witness: the fixture block read back after insert + attach. -/
theorem c1_attach_block_reads_witness :
    get_block_hash (commitOps (insert_block blkB1 ++ attach_block blkB1)
        (freshStore 4096 128).db) blkB1.header.number = some blkB1.header.hash
    ∧ get_transaction (commitOps (insert_block blkB1 ++ attach_block blkB1)
        (freshStore 4096 128).db) txA.hash = some (txA, blkB1.header.hash) := by
  have h := c1_attach_block_reads (freshStore 4096 128) blkB1 _
    (by decide) (by decide) rfl
  exact ⟨h.1, (h.2.2 0 txA rfl).2.1⟩

/-- C3 counterexample: a starting state that already holds an uncle mark at
one of the keys `attach_block(blkBx)` writes; after attach; commit; detach;
commit the mark is deleted, not restored, so the UNCLES column differs from
its pre-attach state. -/
theorem c3_counterexample :
    preMarkedStore .UNCLES (hashKey uncA.hash) = some .empty
    ∧ commitOps (detach_block blkBx)
        (commitOps (attach_block blkBx) preMarkedStore) .UNCLES
        (hashKey uncA.hash) = none := by
  exact ⟨by decide, by decide⟩

/-- C3 (amended): provided none of the keys that `attach_block(B)` writes
(equivalently that `detach_block(B)` deletes: transaction addresses,
cell-meta keys, both INDEX directions, uncle marks) is present in the
starting state, attach; commit; detach; commit restores the entire store —
in particular every affected column — to exactly the pre-attach state. -/
theorem c3_attach_detach_roundtrip (B : Block) (s : Store)
    (hpre : ∀ a ∈ (detach_block B).map opAddr, s a.1 a.2 = none) :
    commitOps (detach_block B) (commitOps (attach_block B) s) = s :=
  attach_detach_restore B s hpre

/-- C3 witness: attach then detach of the fixture block on the empty store
restores the empty store. -/
theorem c3_attach_detach_roundtrip_witness :
    commitOps (detach_block blkBx) (commitOps (attach_block blkBx) emptyStore)
      = emptyStore :=
  c3_attach_detach_roundtrip blkBx emptyStore (by decide)

/-- C6 counterexample: blkBx and blkBy both embed uncle uncA; after
attaching both and detaching only blkBx, blkBy is still attached
(`get_block_number` finds it) and embeds uncA, yet `is_uncle` is false —
the UNCLES column is not the exact set of uncles of attached blocks. -/
theorem c6_counterexample :
    is_uncle (commitOps (detach_block blkBx)
        (commitOps (attach_block blkBy)
          (commitOps (attach_block blkBx) emptyStore))) uncA.hash = false
    ∧ get_block_number (commitOps (detach_block blkBx)
        (commitOps (attach_block blkBy)
          (commitOps (attach_block blkBx) emptyStore))) blkBy.header.hash
        = some 2
    ∧ uncA ∈ blkBy.uncles := by
  exact ⟨by decide, by decide, by decide⟩

/-- C6 (amended): a committed `attach_block(B)` marks every uncle hash of
`B` (is_uncle true), and a committed `detach_block(B)` unconditionally
deletes every uncle mark of `B` (is_uncle false) regardless of what other
attached blocks embed: the column tracks the most recent attach/detach, not
the exact set over all attached blocks. -/
theorem c6_uncle_marks (B : Block) (s s2 : Store) (u : UncleBlock)
    (hu : u ∈ B.uncles) :
    is_uncle (commitOps (attach_block B) s) u.hash = true
    ∧ is_uncle (commitOps (detach_block B) s2) u.hash = false := by
  constructor
  · simp [is_uncle, attach_lookup_uncle B s u hu]
  · simp [is_uncle, detach_lookup_uncle B s2 u hu]

/-- C6 witness: the fixture uncle is marked by attach and unmarked by
detach. -/
theorem c6_uncle_marks_witness :
    is_uncle (commitOps (attach_block blkBx) emptyStore) uncA.hash = true
    ∧ is_uncle (commitOps (detach_block blkBx) emptyStore) uncA.hash = false :=
  c6_uncle_marks blkBx emptyStore emptyStore uncA (by decide)

theorem get_block_header_coherent (cs : ChainKVStore) (hok : headerCacheOK cs)
    (h : H256) :
    (get_block_header cs h).1 = uncached_get_block_header cs.db h := by
  unfold get_block_header LruCache.get_refresh
  cases hfind : cs.header_cache.items.find? fun p => decide (p.1 = h) with
  | none =>
    cases hu : uncached_get_block_header cs.db h <;> simp [hfind, hu]
  | some p =>
    have hpred := List.find?_some hfind
    have hp : p.1 = h := of_decide_eq_true hpred
    have hv := hok p (List.mem_of_find?_eq_some hfind)
    rw [hp] at hv
    simp [hfind, hv]

theorem get_tip_header_coherent (cs : ChainKVStore) (hok : headerCacheOK cs) :
    (get_tip_header cs).1 = uncached_get_tip_header cs.db := by
  unfold get_tip_header uncached_get_tip_header
  cases hm : cs.db .META META_TIP_HEADER_KEY with
  | none => simp [hm]
  | some v => cases v <;> simp [hm, get_block_header_coherent cs hok]

theorem get_cell_output_coherent (cs : ChainKVStore) (hok : cellOutputCacheOK cs)
    (tx : H256) (i : Nat) :
    (get_cell_output cs tx i).1 = uncached_get_cell_output cs.db tx i := by
  unfold get_cell_output LruCache.get_refresh
  cases hfind : cs.cell_output_cache.items.find? fun p => decide (p.1 = (tx, i)) with
  | none =>
    cases hu : uncached_get_cell_output cs.db tx i <;> simp [hfind, hu]
  | some p =>
    have hpred := List.find?_some hfind
    have hp : p.1 = (tx, i) := of_decide_eq_true hpred
    have hv := hok p (List.mem_of_find?_eq_some hfind)
    rw [hp] at hv
    simp [hfind, hv]

/-- C5 counterexample: commit insert + attach of `blkB1`, read the cell
output (which populates the cache), commit `detach_block(blkB1)`: the cached
read still returns the output while the read-through-to-backend value is
`none` — the cached store is not observationally equivalent to the backend
after a detach, because `detach_block` invalidates no cache entry. -/
theorem c5_counterexample :
    (get_cell_output c5store3 txA.hash 0).1 = some oA
    ∧ uncached_get_cell_output c5store3.db txA.hash 0 = none := by
  exact ⟨by decide, by decide⟩

/-- C5 (amended): the cached reads (`get_block_header`, `get_tip_header`,
`get_cell_output`) return exactly the backend (read-through) value in every
state whose cache entries all agree with the backend; this invariant holds
for fresh caches and is what a committed `detach_block` breaks for the
cell-output cache (no invalidation), as the counterexample shows. -/
theorem c5_cache_coherence (cs : ChainKVStore)
    (hok1 : headerCacheOK cs) (hok2 : cellOutputCacheOK cs) :
    (∀ h, (get_block_header cs h).1 = uncached_get_block_header cs.db h)
    ∧ (get_tip_header cs).1 = uncached_get_tip_header cs.db
    ∧ (∀ tx i, (get_cell_output cs tx i).1 = uncached_get_cell_output cs.db tx i) :=
  ⟨fun h => get_block_header_coherent cs hok1 h,
   get_tip_header_coherent cs hok1,
   fun tx i => get_cell_output_coherent cs hok2 tx i⟩

/-- C5 witness: the coherence equivalence applied to the post-attach store
with freshly populated (agreeing) caches. -/
theorem c5_cache_coherence_witness :
    (get_tip_header c5store2).1 = uncached_get_tip_header c5store2.db
    ∧ (get_cell_output c5store2 txA.hash 0).1
        = uncached_get_cell_output c5store2.db txA.hash 0 := by
  have h := c5_cache_coherence c5store2
    (by unfold headerCacheOK; decide) (by unfold cellOutputCacheOK; decide)
  exact ⟨h.2.1, h.2.2 txA.hash 0⟩

theorem single_put_other (c0 : Col) (k0 : Bytes) (v : Val) {c : Col} {k : Bytes}
    (s : Store) (hne : ((c0, k0) : Col × Bytes) ≠ (c, k)) :
    commitOps [.put c0 k0 v] s c k = s c k := by
  rw [commitOps_singleton]
  exact applyOp_addr_ne _ _ _ _ (by simpa [opAddr] using hne)

theorem insert_epoch_ext_col_ne {c : Col} (hc : c ≠ Col.EPOCH) (h : H256)
    (e : EpochExt) : ∀ (s : Store) (k : Bytes),
      commitOps (insert_epoch_ext h e) s c k = s c k := by
  intro s k
  refine commitOps_col_ne ?_ s k
  intro op hop
  rw [insert_epoch_ext] at hop
  rcases List.mem_cons.1 hop with rfl | hop
  · exact fun he => hc he.symm
  · rcases List.mem_cons.1 hop with rfl | hop
    · exact fun he => hc he.symm
    · simp at hop

theorem initCellSetOps_col_ne {g : Block} {c : Col} (hc : c ≠ Col.CELL_SET) :
    ∀ (s : Store) (k : Bytes), commitOps (initCellSetOps g) s c k = s c k := by
  intro s k
  refine commitOps_col_ne ?_ s k
  intro op hop
  rw [initCellSetOps] at hop
  rcases List.mem_flatten.1 hop with ⟨sub, hsub, hopsub⟩
  rcases List.mem_map.1 hsub with ⟨tx, _, rfl⟩
  rcases List.mem_cons.1 hopsub with rfl | hopsub
  · exact fun he => hc he.symm
  · simp at hopsub

theorem foldlM_safe_add_sum :
    ∀ (l : List CellOutput) (acc v : Nat),
      l.foldlM (fun a o => safe_add a o.capacity) acc = some v →
      v = acc + (l.map CellOutput.capacity).sum := by
  intro l
  induction l with
  | nil =>
    intro acc v h
    simp only [List.foldlM_nil] at h
    have : acc = v := Option.some.inj h
    simp [← this]
  | cons o os ih =>
    intro acc v h
    rw [List.foldlM_cons] at h
    cases hsa : safe_add acc o.capacity with
    | none => rw [hsa] at h; simp at h
    | some a =>
      rw [hsa] at h
      have h2 : os.foldlM (fun a o => safe_add a o.capacity) a = some v := by
        simpa using h
      have hv := ih a v h2
      have ha : a = acc + o.capacity := by
        unfold safe_add at hsa
        split at hsa
        · exact (Option.some.inj hsa).symm
        · exact absurd hsa (by simp)
      rw [hv, ha]
      simp [List.sum_cons]
      omega

theorem init_lookups (c : Consensus) (cap : Nat) :
    commitOps (initOps c cap) emptyStore .META META_TIP_HEADER_KEY
        = some (.hash c.genesis_block.header.hash)
    ∧ commitOps (initOps c cap) emptyStore .BLOCK_HEADER
        (hashKey c.genesis_block.header.hash)
        = some (.header c.genesis_block.header)
    ∧ commitOps (initOps c cap) emptyStore .BLOCK_EXT
        (hashKey c.genesis_block.header.hash)
        = some (.blockExt (genesisBlockExt c.genesis_block cap))
    ∧ commitOps (initOps c cap) emptyStore .INDEX
        (numberKey c.genesis_block.header.number)
        = some (.hash c.genesis_block.header.hash) := by
  simp only [initOps, commitOps_append, insert_block_ext, insert_tip_header,
    insert_current_epoch_ext, insert_block_epoch_index]
  refine ⟨?_, ?_, ?_, ?_⟩
  · rw [attach_other_col _ (by simp) (by simp) (by simp) (by simp)]
    rw [insert_epoch_ext_col_ne (by simp)]
    rw [single_put_other _ _ _ _ (by intro he; exact absurd (congrArg Prod.fst he) (by simp))]
    rw [single_put_other _ _ _ _ (by decide)]
    rw [commitOps_singleton]
    exact applyOp_put_self _ _ _ _
  · rw [attach_other_col _ (by simp) (by simp) (by simp) (by simp)]
    rw [insert_epoch_ext_col_ne (by simp)]
    rw [single_put_other _ _ _ _ (by intro he; exact absurd (congrArg Prod.fst he) (by simp))]
    rw [single_put_other _ _ _ _ (by intro he; exact absurd (congrArg Prod.fst he) (by simp))]
    rw [single_put_other _ _ _ _ (by intro he; exact absurd (congrArg Prod.fst he) (by simp))]
    rw [single_put_other _ _ _ _ (by intro he; exact absurd (congrArg Prod.fst he) (by simp))]
    exact insert_lookup_header c.genesis_block _
  · rw [attach_other_col _ (by simp) (by simp) (by simp) (by simp)]
    rw [insert_epoch_ext_col_ne (by simp)]
    rw [single_put_other _ _ _ _ (by intro he; exact absurd (congrArg Prod.fst he) (by simp))]
    rw [single_put_other _ _ _ _ (by intro he; exact absurd (congrArg Prod.fst he) (by simp))]
    rw [single_put_other _ _ _ _ (by intro he; exact absurd (congrArg Prod.fst he) (by simp))]
    rw [commitOps_singleton]
    exact applyOp_put_self _ _ _ _
  · exact attach_lookup_index_number c.genesis_block _

/-- C4: after `init(consensus)` succeeds on a fresh store,
`get_block_hash(0)` returns the genesis hash, `get_tip_header()` returns the
genesis header, and `get_block_ext(genesis_hash)` is the `BlockExt` with
`total_difficulty` = genesis difficulty, `total_uncles_count` = 0,
`verified` = true, `txs_fees` = [], `accumulated_rate` =
DEFAULT_ACCUMULATED_RATE and `accumulated_capacity` the sum of the
capacities of the first genesis transaction's outputs from output 1 on. -/
theorem c4_init_genesis (a b : Nat) (c : Consensus) (cap : Nat)
    (csOut : ChainKVStore)
    (hcap : genesisAccumulatedCapacity c.genesis_block = some cap)
    (hinit : init (freshStore a b) c = some csOut)
    (hnum : c.genesis_block.header.number = 0) :
    get_block_hash csOut.db 0 = some c.genesis_block.header.hash
    ∧ (get_tip_header csOut).1 = some c.genesis_block.header
    ∧ get_block_ext csOut.db c.genesis_block.header.hash
        = some ⟨c.genesis_block.header.timestamp,
            c.genesis_block.header.difficulty, 0, some true, [],
            ⟨DEFAULT_ACCUMULATED_RATE, cap⟩⟩
    ∧ cap = ((c.genesis_block.transactions.get? 0).map
        (fun tx => ((tx.outputs.drop 1).map CellOutput.capacity).sum)).getD 0 := by
  have hcs : csOut
      = ⟨commitOps (initOps c cap) emptyStore, ⟨a, []⟩, ⟨b, []⟩⟩ := by
    rw [init, hcap] at hinit
    simpa [freshStore] using hinit.symm
  subst hcs
  obtain ⟨htip, hheader, hext, hindex⟩ := init_lookups c cap
  rw [hnum] at hindex
  refine ⟨?_, ?_, ?_, ?_⟩
  · simp [get_block_hash, hindex]
  · have hgr : (LruCache.mk a ([] : List (H256 × Header))).get_refresh
        c.genesis_block.header.hash = (none, ⟨a, []⟩) := rfl
    have huh : uncached_get_block_header (commitOps (initOps c cap) emptyStore)
        c.genesis_block.header.hash = some c.genesis_block.header := by
      simp [uncached_get_block_header, hheader]
    simp [get_tip_header, htip, get_block_header, hgr, huh]
  · simp [get_block_ext, hext, genesisBlockExt]
  · rw [genesisAccumulatedCapacity] at hcap
    cases hg : c.genesis_block.transactions.get? 0 with
    | none =>
      rw [hg] at hcap
      simp at hcap
      simp [hg, ← hcap]
    | some tx =>
      rw [hg] at hcap
      have := foldlM_safe_add_sum _ 0 cap hcap
      simp [hg, this]

/-- C4 witness: init on the fixture consensus (genesis at height 0, one
cellbase with outputs of capacities 11 and 22): the accumulated capacity is
22 (output 0 excluded) and the genesis reads hold. -/
theorem c4_init_genesis_witness :
    get_block_hash initStoreW.db 0 = some gBlk.header.hash
    ∧ (get_tip_header initStoreW).1 = some gBlk.header := by
  have h := c4_init_genesis 4096 128 consensusW 22 initStoreW rfl rfl rfl
  exact ⟨h.1, h.2.1⟩

end CkbStore
